import Mathlib

/-!
Shallow embedding of the multi-root client lifecycle and document-routing
logic of the vscode-clangd fork (src/extension.ts and src/root-management.ts).
JavaScript strings are modelled by Lean `String`; the JS builtins
`endsWith` and `startsWith` are modelled as suffix and prefix tests on the
character data, which is their specified semantics.
-/

set_option linter.unusedVariables false

/-- Model of the JavaScript builtin `s.endsWith(post)`. -/
def jsEndsWith (s post : String) : Bool :=
  post.data.isSuffixOf s.data

/-- Model of the JavaScript builtin `s.startsWith(p)`. -/
def jsStartsWith (s p : String) : Bool :=
  p.data.isPrefixOf s.data

/-- The glob built from one desired root in `compareCurrentAndDesiredRoots`
    (src/root-management.ts, lines 34-35):
    `root.endsWith('/') ? root : root + '/'` concatenated with `**/*`. -/
def rootToGlob (root : String) : String :=
  (if jsEndsWith root "/" then root else root ++ "/") ++ "**/*"

lemma jsEndsWith_iff (s t : String) : jsEndsWith s t = true ↔ t.data <:+ s.data := by
  simp [jsEndsWith, List.isSuffixOf_iff_suffix]

lemma jsEndsWith_false_iff (s t : String) :
    jsEndsWith s t = false ↔ ¬ t.data <:+ s.data := by
  rw [← Bool.not_eq_true, jsEndsWith_iff]

/-- Helper: a string append's character data is the append of the data. -/
lemma string_data_append (s t : String) : (s ++ t).data = s.data ++ t.data := rfl

/-- Helper: cancel a common appended tail of a list-suffix relation. -/
lemma append_suffix_cancel {α : Type} (u v s : List α) (h : (u ++ s) <:+ (v ++ s)) :
    u <:+ v := by
  obtain ⟨p, hp⟩ := h
  rw [← List.append_assoc] at hp
  exact ⟨p, List.append_cancel_right hp⟩

/-- C5 as literally stated quantifies over every input root path.  At the
    concrete root `"a//"` the produced glob is `"a//**/*"`, which ends in two
    path separators followed by `**/*`, so it does not end with exactly one
    separator followed by `**/*`. -/
theorem claim_C5_counterexample :
    rootToGlob "a//" = "a//**/*" ∧
    ¬ (jsEndsWith (rootToGlob "a//") "/**/*" = true ∧
       jsEndsWith (rootToGlob "a//") "//**/*" = false) := by
  constructor
  · rfl
  · decide

/-- C5 (amended): for every input root whose last two characters are not both
    path separators, the constructed glob ends with exactly one path separator
    followed by `**/*`; in the concrete instances, `"/a/b"` and `"/a/b/"` both
    produce the glob `"/a/b/**/*"`. -/
theorem claim_C5_glob_separator (root : String)
    (h : jsEndsWith root "//" = false) :
    jsEndsWith (rootToGlob root) "/**/*" = true ∧
    jsEndsWith (rootToGlob root) "//**/*" = false ∧
    rootToGlob "/a/b" = "/a/b/**/*" ∧
    rootToGlob "/a/b/" = "/a/b/**/*" := by
  rw [jsEndsWith_false_iff] at h
  have hglob : rootToGlob root =
      (if jsEndsWith root "/" then root else root ++ "/") ++ "**/*" := rfl
  have dsep : ("//**/*" : String).data = ("//" : String).data ++ ("**/*" : String).data := rfl
  have dsep2 : ("//**/*" : String).data = ("/" : String).data ++ ("/**/*" : String).data := rfl
  refine ⟨?_, ?_, rfl, rfl⟩
  · rw [jsEndsWith_iff]
    by_cases hc : jsEndsWith root "/" = true
    · obtain ⟨t, ht⟩ := (jsEndsWith_iff root "/").mp hc
      rw [hglob, if_pos hc, string_data_append]
      refine ⟨t, ?_⟩
      rw [← ht, List.append_assoc]
      rfl
    · rw [hglob, if_neg hc, string_data_append, string_data_append, List.append_assoc]
      exact List.suffix_append root.data (("/" : String).data ++ ("**/*" : String).data)
  · rw [jsEndsWith_false_iff]
    intro hsuf
    by_cases hc : jsEndsWith root "/" = true
    · rw [hglob, if_pos hc, string_data_append, dsep] at hsuf
      exact h (append_suffix_cancel _ _ _ hsuf)
    · rw [hglob, if_neg hc, string_data_append, string_data_append,
         List.append_assoc, dsep2] at hsuf
      have : ("/" : String).data ++ ("**/*" : String).data = ("/**/*" : String).data := rfl
      rw [this] at hsuf
      exact hc ((jsEndsWith_iff root "/").mpr (append_suffix_cancel _ _ _ hsuf))

/-- Witness for `claim_C5_glob_separator` at the concrete root `"/a/b"`. -/
theorem claim_C5_glob_separator_witness :
    jsEndsWith ("/a/b") "//" = false ∧
    jsEndsWith (rootToGlob "/a/b") "/**/*" = true := by
  refine ⟨by decide, ?_⟩
  exact (claim_C5_glob_separator "/a/b" (by decide)).1

/-- Model of a vscode `DocumentFilter` entry of the live
    `clangdDocumentSelector` collection (all fields optional in the API). -/
structure DocumentFilter where
  scheme : Option String
  language : Option String
  pattern : Option String
deriving DecidableEq, Repr

/-- From `getCurrentRoots` (src/root-management.ts, lines 24-31): the patterns
    of the current selector entries whose language is `c` or `cpp` and whose
    pattern is a string. -/
def getCurrentRoots (selectors : List DocumentFilter) : List String :=
  (selectors.filter (fun item =>
      (item.language = some "c" ∨ item.language = some "cpp") ∧
        item.pattern.isSome)).filterMap (fun item => item.pattern)

/-- Model of the JavaScript `new Set(list)` construction with ordered
    iteration: the list with later duplicates removed (JS sets keep first
    insertion order). -/
def jsSetOfList : List String → List String
  | [] => []
  | x :: xs => x :: (jsSetOfList xs).filter (fun y => y ≠ x)

/-- The loop of `compareCurrentAndDesiredRoots` (src/root-management.ts,
    lines 37-43): iterate the desired globs in order; a glob not present in
    the current set is pushed onto `toAdds`; every visited glob is deleted
    from the set.  Returns `toAdds` and the remaining set (the `toDeletes`). -/
def compareLoop : List String → List String → List String × List String
  | [], current => ([], current)
  | glob :: rest, current =>
    if glob ∈ current then compareLoop rest (current.erase glob)
    else (glob :: (compareLoop rest (current.erase glob)).1,
          (compareLoop rest (current.erase glob)).2)

/-- From `compareCurrentAndDesiredRoots` (src/root-management.ts, lines
    33-47): map the desired roots to globs, seed the JS set with the current
    roots, and run the comparison loop. -/
def compareCurrentAndDesiredRoots (selectors : List DocumentFilter)
    (newRoots : List String) : List String × List String :=
  compareLoop (newRoots.map rootToGlob) (jsSetOfList (getCurrentRoots selectors))

/-- The inner while-loop of `reconcileSelectorsAndTargets` (src/
    root-management.ts, lines 52-58) removes every selector entry whose
    pattern equals the deleted glob. -/
def deleteAllWithPattern (selectors : List DocumentFilter) (toDelete : String) :
    List DocumentFilter :=
  selectors.filter (fun item => item.pattern ≠ some toDelete)

/-- The push of `reconcileSelectorsAndTargets` (src/root-management.ts, lines
    59-62): append the `c` and `cpp` rules for one added glob. -/
def pushRootRules (selectors : List DocumentFilter) (toAdd : String) :
    List DocumentFilter :=
  selectors ++
    [⟨some "file", some "c", some toAdd⟩, ⟨some "file", some "cpp", some toAdd⟩]

/-- From `reconcileSelectorsAndTargets` (src/root-management.ts, lines 49-63):
    apply all deletions, then all additions, to the live selector list. -/
def reconcileSelectorsAndTargets (selectors : List DocumentFilter)
    (toAdds : List String) (toDeletes : List String) : List DocumentFilter :=
  toAdds.foldl pushRootRules (toDeletes.foldl deleteAllWithPattern selectors)

/-- Model of an arbitrary JavaScript value passed as the argument of the
    `clangd.setRoots` command. -/
inductive JSValue where
  | str (s : String)
  | num (n : Int)
  | boolean (b : Bool)
  | arr (items : List JSValue)
  | nullv

/-- Extraction of an all-strings array, mirroring the validation
    `Array.isArray(newRoots) && newRoots.every(item => typeof item ===
    'string')` of `registerSetRootsCommand` (src/root-management.ts, lines
    8-12). -/
def allStringItems : List JSValue → Option (List String)
  | [] => some []
  | JSValue.str s :: rest => (allStringItems rest).map (fun ss => s :: ss)
  | _ :: _ => none

def asStringArray : JSValue → Option (List String)
  | JSValue.arr items => allStringItems items
  | _ => none

/-- The observable outcome of one invocation of the `clangd.setRoots`
    command handler: the new selector list, the number of calls made to
    `restartCLangDSafely`, and the console messages printed by the handler
    itself. -/
structure SetRootsOutcome where
  selectors : List DocumentFilter
  restartRequests : Nat
  logs : List String
deriving DecidableEq, Repr

def invalidArgsLog : String :=
  "Received incorrect arguments for \"clangd.setRoots\""

def noChangeLog : String :=
  "CLangD found that the requested operation produced no change in its parameters."

/-- The `clangd.setRoots` command handler registered by
    `registerSetRootsCommand` (src/root-management.ts, lines 4-22). -/
def setRootsCommand (selectors : List DocumentFilter) (arg : JSValue) :
    SetRootsOutcome :=
  match asStringArray arg with
  | none => ⟨selectors, 0, [invalidArgsLog]⟩
  | some newRoots =>
    let d := compareCurrentAndDesiredRoots selectors newRoots
    let selectors2 := reconcileSelectorsAndTargets selectors d.1 d.2
    if d.2 ≠ [] ∨ d.1 ≠ [] then ⟨selectors2, 1, []⟩
    else ⟨selectors2, 0, [noChangeLog]⟩

/-- C7: for every argument that is not an array of strings, the
    `clangd.setRoots` handler logs the invalid-argument message and returns
    with the selector collection unchanged and no restart requested (the
    handler is a total function, so no exception reaches the host). -/
theorem claim_C7_invalid_argument (selectors : List DocumentFilter)
    (arg : JSValue) (h : asStringArray arg = none) :
    setRootsCommand selectors arg = ⟨selectors, 0, [invalidArgsLog]⟩ := by
  simp [setRootsCommand, h]

/-- Witness for `claim_C7_invalid_argument` at the mixed-type array
    `["not", 123]`. -/
theorem claim_C7_invalid_argument_witness :
    asStringArray (JSValue.arr [JSValue.str "not", JSValue.num 123]) = none ∧
    setRootsCommand [] (JSValue.arr [JSValue.str "not", JSValue.num 123]) =
      ⟨[], 0, [invalidArgsLog]⟩ :=
  ⟨rfl, claim_C7_invalid_argument [] _ rfl⟩

lemma mem_getCurrentRoots {selectors : List DocumentFilter} {x : String} :
    x ∈ getCurrentRoots selectors ↔
      ∃ item ∈ selectors,
        (item.language = some "c" ∨ item.language = some "cpp") ∧
          item.pattern = some x := by
  unfold getCurrentRoots
  simp only [List.mem_filterMap, List.mem_filter, decide_eq_true_eq]
  constructor
  · rintro ⟨item, ⟨hmem, hcond⟩, hpat⟩
    exact ⟨item, hmem, by simpa using hcond.1, hpat⟩
  · rintro ⟨item, hmem, hlang, hpat⟩
    exact ⟨item, ⟨hmem, by simp [hlang, hpat]⟩, hpat⟩

lemma getCurrentRoots_append (a b : List DocumentFilter) :
    getCurrentRoots (a ++ b) = getCurrentRoots a ++ getCurrentRoots b := by
  simp [getCurrentRoots, List.filter_append, List.filterMap_append]

lemma getCurrentRoots_push (selectors : List DocumentFilter) (g : String) :
    getCurrentRoots (pushRootRules selectors g) = getCurrentRoots selectors ++ [g, g] := by
  rw [pushRootRules, getCurrentRoots_append]
  simp [getCurrentRoots]

lemma mem_getCurrentRoots_deleteAll {selectors : List DocumentFilter}
    {d x : String} :
    x ∈ getCurrentRoots (deleteAllWithPattern selectors d) ↔
      x ∈ getCurrentRoots selectors ∧ x ≠ d := by
  simp only [mem_getCurrentRoots, deleteAllWithPattern, List.mem_filter,
    decide_eq_true_eq]
  constructor
  · rintro ⟨item, ⟨hmem, hne⟩, hlang, hpat⟩
    refine ⟨⟨item, hmem, hlang, hpat⟩, ?_⟩
    intro hxd
    exact hne (by rw [hpat, hxd])
  · rintro ⟨⟨item, hmem, hlang, hpat⟩, hxd⟩
    exact ⟨item, ⟨hmem, by rw [hpat]; simpa using hxd⟩, hlang, hpat⟩

lemma mem_getCurrentRoots_deletes_fold {ds : List String}
    {selectors : List DocumentFilter} {x : String} :
    x ∈ getCurrentRoots (ds.foldl deleteAllWithPattern selectors) ↔
      x ∈ getCurrentRoots selectors ∧ x ∉ ds := by
  induction ds generalizing selectors with
  | nil => simp
  | cons d t ih =>
    rw [List.foldl_cons, ih, mem_getCurrentRoots_deleteAll, List.mem_cons]
    tauto

lemma mem_getCurrentRoots_adds_fold {adds : List String}
    {selectors : List DocumentFilter} {x : String} :
    x ∈ getCurrentRoots (adds.foldl pushRootRules selectors) ↔
      x ∈ getCurrentRoots selectors ∨ x ∈ adds := by
  induction adds generalizing selectors with
  | nil => simp
  | cons a t ih =>
    rw [List.foldl_cons, ih, getCurrentRoots_push, List.mem_append, List.mem_cons]
    simp only [List.mem_cons, List.not_mem_nil, or_false]
    tauto

lemma mem_jsSetOfList {l : List String} {x : String} :
    x ∈ jsSetOfList l ↔ x ∈ l := by
  induction l with
  | nil => simp [jsSetOfList]
  | cons a t ih =>
    simp only [jsSetOfList, List.mem_cons, List.mem_filter, decide_eq_true_eq, ih]
    constructor
    · rintro (h | ⟨h, _⟩) <;> simp [h]
    · rintro (h | h)
      · exact Or.inl h
      · by_cases hxa : x = a
        · exact Or.inl hxa
        · exact Or.inr ⟨h, hxa⟩

lemma nodup_jsSetOfList (l : List String) : (jsSetOfList l).Nodup := by
  induction l with
  | nil => simp [jsSetOfList]
  | cons a t ih =>
    rw [jsSetOfList, List.nodup_cons]
    refine ⟨?_, ih.filter _⟩
    intro hmem
    rcases List.mem_filter.mp hmem with ⟨_, hne⟩
    simp at hne

lemma compareLoop_fst_mem {W : List String} (hW : W.Nodup) :
    ∀ {cur : List String}, cur.Nodup → ∀ {x : String},
      (x ∈ (compareLoop W cur).1 ↔ x ∈ W ∧ x ∉ cur) := by
  induction W with
  | nil => intro cur _ x; simp [compareLoop]
  | cons g gs ih =>
    intro cur hcur x
    rw [List.nodup_cons] at hW
    by_cases hg : g ∈ cur
    · rw [compareLoop, if_pos hg, ih hW.2 (hcur.erase g)]
      constructor
      · rintro ⟨hxgs, hxe⟩
        have hxg : x ≠ g := fun hxg => hW.1 (hxg ▸ hxgs)
        exact ⟨List.mem_cons_of_mem _ hxgs,
          fun hxc => hxe ((List.mem_erase_of_ne hxg).mpr hxc)⟩
      · rintro ⟨hxW, hxc⟩
        rcases List.mem_cons.mp hxW with hxg | hxgs
        · exact absurd (hxg ▸ hg) hxc
        · exact ⟨hxgs, fun hxe => hxc (List.mem_of_mem_erase hxe)⟩
    · rw [compareLoop, if_neg hg, List.erase_of_not_mem hg]
      rw [List.mem_cons, ih hW.2 hcur, List.mem_cons]
      constructor
      · rintro (hxg | ⟨hxgs, hxc⟩)
        · exact ⟨Or.inl hxg, hxg ▸ hg⟩
        · exact ⟨Or.inr hxgs, hxc⟩
      · rintro ⟨hxg | hxgs, hxc⟩
        · exact Or.inl hxg
        · exact Or.inr ⟨hxgs, hxc⟩

lemma compareLoop_snd_mem {W : List String} :
    ∀ {cur : List String}, cur.Nodup → ∀ {x : String},
      (x ∈ (compareLoop W cur).2 ↔ x ∈ cur ∧ x ∉ W) := by
  induction W with
  | nil => intro cur _ x; simp [compareLoop]
  | cons g gs ih =>
    intro cur hcur x
    have hbody : x ∈ (compareLoop gs (cur.erase g)).2 ↔ x ∈ cur ∧ x ∉ g :: gs := by
      rw [ih (hcur.erase g), hcur.mem_erase_iff, List.mem_cons]
      tauto
    by_cases hg : g ∈ cur
    · rw [compareLoop, if_pos hg]; exact hbody
    · rw [compareLoop, if_neg hg]
      show x ∈ (compareLoop gs (cur.erase g)).2 ↔ _
      rw [hbody]

lemma compareLoop_empty {W : List String} (hW : W.Nodup) :
    ∀ {cur : List String}, cur.Nodup → (∀ x ∈ W, x ∈ cur) →
      (∀ x ∈ cur, x ∈ W) → compareLoop W cur = ([], []) := by
  induction W with
  | nil =>
    intro cur _ _ h2
    have : cur = [] := List.eq_nil_iff_forall_not_mem.mpr
      (fun x hx => by simpa using h2 x hx)
    simp [compareLoop, this]
  | cons g gs ih =>
    intro cur hcur h1 h2
    rw [List.nodup_cons] at hW
    have hg : g ∈ cur := h1 g (List.mem_cons_self g gs)
    rw [compareLoop, if_pos hg]
    refine ih hW.2 (hcur.erase g) ?_ ?_
    · intro x hx
      have hxg : x ≠ g := fun hxg => hW.1 (hxg ▸ hx)
      exact (List.mem_erase_of_ne hxg).mpr (h1 x (List.mem_cons_of_mem _ hx))
    · intro x hx
      rcases hcur.mem_erase_iff.mp hx with ⟨hxg, hxc⟩
      rcases List.mem_cons.mp (h2 x hxc) with h | h
      · exact absurd h hxg
      · exact h

lemma currentRoots_after_reconcile (selectors : List DocumentFilter)
    (newRoots : List String) (h : (newRoots.map rootToGlob).Nodup)
    (x : String) :
    x ∈ getCurrentRoots (reconcileSelectorsAndTargets selectors
        (compareCurrentAndDesiredRoots selectors newRoots).1
        (compareCurrentAndDesiredRoots selectors newRoots).2) ↔
      x ∈ newRoots.map rootToGlob := by
  rw [reconcileSelectorsAndTargets, mem_getCurrentRoots_adds_fold,
    mem_getCurrentRoots_deletes_fold, compareCurrentAndDesiredRoots,
    compareLoop_fst_mem h (nodup_jsSetOfList _),
    compareLoop_snd_mem (nodup_jsSetOfList _), mem_jsSetOfList]
  tauto

/-- C3 (amended): for every initial selector list and every input list of
    directories whose normalized globs are pairwise distinct, computing the
    reconciliation delta, applying it, and recomputing the delta for the same
    input yields the empty delta.  (With duplicated entries in the input the
    claim as stated fails; see `claim_C3_counterexample`.) -/
theorem claim_C3_reconcile_idempotent (selectors : List DocumentFilter)
    (newRoots : List String) (h : (newRoots.map rootToGlob).Nodup) :
    compareCurrentAndDesiredRoots
        (reconcileSelectorsAndTargets selectors
          (compareCurrentAndDesiredRoots selectors newRoots).1
          (compareCurrentAndDesiredRoots selectors newRoots).2)
        newRoots = ([], []) := by
  show compareLoop (newRoots.map rootToGlob)
      (jsSetOfList (getCurrentRoots (reconcileSelectorsAndTargets selectors
        (compareCurrentAndDesiredRoots selectors newRoots).1
        (compareCurrentAndDesiredRoots selectors newRoots).2))) = ([], [])
  refine compareLoop_empty h (nodup_jsSetOfList _) ?_ ?_
  · intro x hx
    rw [mem_jsSetOfList, currentRoots_after_reconcile selectors newRoots h]
    exact hx
  · intro x hx
    rw [mem_jsSetOfList, currentRoots_after_reconcile selectors newRoots h] at hx
    exact hx

/-- C3 as literally stated quantifies over every input directory list.  For
    the duplicated input `["a", "a"]` starting from an empty selector list,
    the delta recomputed after applying the first delta is not empty: the
    duplicated glob is re-added because the first loop iteration deletes it
    from the comparison set and the second iteration then misses it. -/
theorem claim_C3_counterexample :
    compareCurrentAndDesiredRoots
        (reconcileSelectorsAndTargets []
          (compareCurrentAndDesiredRoots [] ["a", "a"]).1
          (compareCurrentAndDesiredRoots [] ["a", "a"]).2)
        ["a", "a"] = (["a/**/*"], []) ∧
    (["a/**/*"], ([] : List String)) ≠ ([], []) := by
  refine ⟨by decide, by decide⟩

/-- Witness for `claim_C3_reconcile_idempotent` at the duplicate-free input
    `["a"]` starting from the empty selector list. -/
theorem claim_C3_reconcile_idempotent_witness :
    (["a"].map rootToGlob).Nodup ∧
    compareCurrentAndDesiredRoots
        (reconcileSelectorsAndTargets []
          (compareCurrentAndDesiredRoots [] ["a"]).1
          (compareCurrentAndDesiredRoots [] ["a"]).2)
        ["a"] = ([], []) :=
  ⟨by decide, claim_C3_reconcile_idempotent [] ["a"] (by decide)⟩

/-- C10: when the requested root list contains the same root twice and its
    glob is not among the current roots, `toAdds` contains the glob twice and
    applying the delta pushes two identical pairs of rules (four entries), so
    the live selector collection ends up with duplicate entries. -/
theorem claim_C10_duplicate_root (selectors : List DocumentFilter) (r : String)
    (h : rootToGlob r ∉ getCurrentRoots selectors) :
    (compareCurrentAndDesiredRoots selectors [r, r]).1 =
      [rootToGlob r, rootToGlob r] ∧
    reconcileSelectorsAndTargets selectors
        (compareCurrentAndDesiredRoots selectors [r, r]).1
        (compareCurrentAndDesiredRoots selectors [r, r]).2 =
      ((compareCurrentAndDesiredRoots selectors [r, r]).2).foldl
          deleteAllWithPattern selectors ++
        [⟨some "file", some "c", some (rootToGlob r)⟩,
         ⟨some "file", some "cpp", some (rootToGlob r)⟩,
         ⟨some "file", some "c", some (rootToGlob r)⟩,
         ⟨some "file", some "cpp", some (rootToGlob r)⟩] ∧
    ¬ (reconcileSelectorsAndTargets selectors
        (compareCurrentAndDesiredRoots selectors [r, r]).1
        (compareCurrentAndDesiredRoots selectors [r, r]).2).Nodup := by
  have hC : rootToGlob r ∉ jsSetOfList (getCurrentRoots selectors) :=
    fun hc => h (mem_jsSetOfList.mp hc)
  have h1 : compareCurrentAndDesiredRoots selectors [r, r] =
      ([rootToGlob r, rootToGlob r], jsSetOfList (getCurrentRoots selectors)) := by
    show compareLoop [rootToGlob r, rootToGlob r]
        (jsSetOfList (getCurrentRoots selectors)) = _
    rw [compareLoop, if_neg hC, List.erase_of_not_mem hC,
      compareLoop, if_neg hC, List.erase_of_not_mem hC]
    rfl
  have h2 : reconcileSelectorsAndTargets selectors
      (compareCurrentAndDesiredRoots selectors [r, r]).1
      (compareCurrentAndDesiredRoots selectors [r, r]).2 =
      ((compareCurrentAndDesiredRoots selectors [r, r]).2).foldl
          deleteAllWithPattern selectors ++
        [⟨some "file", some "c", some (rootToGlob r)⟩,
         ⟨some "file", some "cpp", some (rootToGlob r)⟩,
         ⟨some "file", some "c", some (rootToGlob r)⟩,
         ⟨some "file", some "cpp", some (rootToGlob r)⟩] := by
    rw [h1]
    simp [reconcileSelectorsAndTargets, pushRootRules, List.append_assoc]
  refine ⟨by rw [h1], h2, ?_⟩
  rw [h2]
  intro hnd
  have hdup := hnd.of_append_right
  simp [List.nodup_cons] at hdup

/-- Witness for `claim_C10_duplicate_root` at the empty selector list and
    root `"b"`. -/
theorem claim_C10_duplicate_root_witness :
    rootToGlob "b" ∉ getCurrentRoots [] ∧
    (compareCurrentAndDesiredRoots [] ["b", "b"]).1 =
      [rootToGlob "b", rootToGlob "b"] :=
  ⟨by decide, (claim_C10_duplicate_root [] "b" (by decide)).1⟩

/-- C4: invoking `clangd.setRoots` with the empty list when exactly one root
    was previously set (its `c`/`cpp` rule pair appended to a base selector
    list carrying no managed roots and no entry with that root's glob)
    removes exactly that pair, adds nothing, and requests exactly one
    restart; and in general an empty desired-roots input leaves no managed
    root in the live selector collection. -/
theorem claim_C4_clear_roots (base : List DocumentFilter) (r : String)
    (hbase : getCurrentRoots base = [])
    (hpat : ∀ item ∈ base, item.pattern ≠ some (rootToGlob r)) :
    setRootsCommand (base ++ [⟨some "file", some "c", some (rootToGlob r)⟩,
        ⟨some "file", some "cpp", some (rootToGlob r)⟩]) (JSValue.arr []) =
      ⟨base, 1, []⟩ ∧
    (∀ selectors : List DocumentFilter,
      getCurrentRoots ((setRootsCommand selectors (JSValue.arr [])).selectors) = []) := by
  constructor
  · have hcur : getCurrentRoots (base ++
        [⟨some "file", some "c", some (rootToGlob r)⟩,
         ⟨some "file", some "cpp", some (rootToGlob r)⟩]) =
        [rootToGlob r, rootToGlob r] := by
      rw [getCurrentRoots_append, hbase]
      simp [getCurrentRoots]
    have hset : jsSetOfList [rootToGlob r, rootToGlob r] = [rootToGlob r] := by
      simp [jsSetOfList]
    have hcmp : compareCurrentAndDesiredRoots (base ++
        [⟨some "file", some "c", some (rootToGlob r)⟩,
         ⟨some "file", some "cpp", some (rootToGlob r)⟩]) [] =
        ([], [rootToGlob r]) := by
      show compareLoop [] _ = _
      rw [hcur, hset]
      rfl
    have hdel : deleteAllWithPattern (base ++
        [⟨some "file", some "c", some (rootToGlob r)⟩,
         ⟨some "file", some "cpp", some (rootToGlob r)⟩]) (rootToGlob r) = base := by
      rw [deleteAllWithPattern, List.filter_append]
      have hb : base.filter (fun item => item.pattern ≠ some (rootToGlob r)) = base :=
        List.filter_eq_self.mpr (fun item hmem => by simpa using hpat item hmem)
      rw [hb]
      simp
    simp [setRootsCommand, asStringArray, allStringItems, hcmp,
      reconcileSelectorsAndTargets, hdel]
  · intro selectors
    have hsel : (setRootsCommand selectors (JSValue.arr [])).selectors =
        reconcileSelectorsAndTargets selectors []
          (jsSetOfList (getCurrentRoots selectors)) := by
      simp only [setRootsCommand, asStringArray, allStringItems]
      split <;> rfl
    rw [hsel, reconcileSelectorsAndTargets, List.foldl_nil]
    refine List.eq_nil_iff_forall_not_mem.mpr ?_
    intro x hx
    rw [mem_getCurrentRoots_deletes_fold] at hx
    exact hx.2 (mem_jsSetOfList.mpr hx.1)

/-- Witness for `claim_C4_clear_roots` with the empty base list and root
    `"r"`. -/
theorem claim_C4_clear_roots_witness :
    getCurrentRoots [] = [] ∧
    setRootsCommand [⟨some "file", some "c", some (rootToGlob "r")⟩,
        ⟨some "file", some "cpp", some (rootToGlob "r")⟩] (JSValue.arr []) =
      ⟨[], 1, []⟩ :=
  ⟨rfl, by
    have h := (claim_C4_clear_roots [] "r" rfl (by simp)).1
    simpa using h⟩

/-- One in-flight invocation of `restartCLangDSafely`
    (src/root-management.ts, lines 65-84): the request id together with the
    `localCancelation` token captured at entry. -/
structure RestartRequest where
  rid : Nat
  localToken : Nat
deriving DecidableEq, Repr

/-- Global state of the restart coordination: `currentToken` models the
    token object currently referenced by `simpleCancelation`;
    `canceledTokens` lists the token ids whose `canceled` field was set;
    `pending` the requests suspended in `waitForClientReady`; `restarted` the
    ids of requests that reached `vscode.commands.executeCommand
    ('clangd.restart')`; `logs` the console messages printed after a
    successful, un-superseded wait. -/
structure CoordState where
  currentToken : Nat
  nextToken : Nat
  canceledTokens : List Nat
  pending : List RestartRequest
  restarted : List Nat
  logs : List String
deriving DecidableEq, Repr

def coordInit : CoordState := ⟨0, 1, [], [], [], []⟩

/-- The cooperative interleaving points of `restartCLangDSafely`:
    `issue` runs the synchronous prologue (cancel the current token,
    install a fresh one, suspend on `waitForClientReady`); `complete` resumes
    a request whose readiness wait resolved; `waitFailed` resumes a request
    whose wait threw (the catch branch returns silently). -/
inductive CoordEvent where
  | issue (rid : Nat)
  | complete (rid : Nat)
  | waitFailed (rid : Nat)
deriving DecidableEq, Repr

def restartLog : String :=
  "CLangD has detected a change in its roots and is restarting."

def coordStep (st : CoordState) : CoordEvent → CoordState
  | CoordEvent.issue rid =>
    { st with
      canceledTokens := st.canceledTokens ++ [st.currentToken],
      currentToken := st.nextToken,
      nextToken := st.nextToken + 1,
      pending := st.pending ++ [⟨rid, st.nextToken⟩] }
  | CoordEvent.complete rid =>
    match st.pending.find? (fun q => q.rid = rid) with
    | none => st
    | some q =>
      if q.localToken ∈ st.canceledTokens then
        { st with pending := st.pending.filter (fun p => p.rid ≠ rid) }
      else
        { st with
          pending := st.pending.filter (fun p => p.rid ≠ rid),
          restarted := st.restarted ++ [rid],
          logs := st.logs ++ [restartLog] }
  | CoordEvent.waitFailed rid =>
    { st with pending := st.pending.filter (fun p => p.rid ≠ rid) }

def coordRun (events : List CoordEvent) : CoordState :=
  events.foldl coordStep coordInit

/-- C2: issuing restart requests R1 then R2 before R1's readiness wait
    resolves executes exactly one restart action, the one belonging to R2,
    with exactly one completion log; in general, issuing a request cancels
    the previously current generation token, and completing a request whose
    captured token has been canceled performs no restart and emits no log. -/
theorem claim_C2_restart_generations :
    ((coordRun [CoordEvent.issue 1, CoordEvent.issue 2,
        CoordEvent.complete 1, CoordEvent.complete 2]).restarted = [2] ∧
     (coordRun [CoordEvent.issue 1, CoordEvent.issue 2,
        CoordEvent.complete 1, CoordEvent.complete 2]).logs = [restartLog]) ∧
    (∀ st : CoordState, ∀ rid : Nat,
      st.currentToken ∈ (coordStep st (CoordEvent.issue rid)).canceledTokens) ∧
    (∀ st : CoordState, ∀ rid : Nat, ∀ q : RestartRequest,
      st.pending.find? (fun p => p.rid = rid) = some q →
      q.localToken ∈ st.canceledTokens →
      (coordStep st (CoordEvent.complete rid)).restarted = st.restarted ∧
      (coordStep st (CoordEvent.complete rid)).logs = st.logs) := by
  refine ⟨⟨by decide, by decide⟩, ?_, ?_⟩
  · intro st rid
    simp [coordStep]
  · intro st rid q hfind hcanc
    rw [coordStep]
    rw [hfind]
    simp [hcanc]

/-- Witness for `claim_C2_restart_generations`: its general parts applied at
    a concrete coordinator state with one pending, superseded request. -/
theorem claim_C2_restart_generations_witness :
    (coordStep ⟨2, 3, [0, 1], [⟨1, 1⟩], [], []⟩
        (CoordEvent.complete 1)).restarted = [] ∧
    (0 : Nat) ∈ (coordStep ⟨0, 1, [], [], [], []⟩ (CoordEvent.issue 7)).canceledTokens :=
  ⟨(claim_C2_restart_generations.2.2 ⟨2, 3, [0, 1], [⟨1, 1⟩], [], []⟩ 1 ⟨1, 1⟩
      (by decide) (by decide)).1,
   claim_C2_restart_generations.2.1 ⟨0, 1, [], [], [], []⟩ 7⟩

/-- Model of the disposable returned by the language client library's
    `start()` call.  `running` tracks whether the underlying server
    connection is live.  Modelled from the spec: the stop reached through
    this disposable is idempotent (section 4.4, a stop of an already-stopped
    client touches no process); the library object itself is an external
    collaborator not in this repository. -/
structure StartDisposable where
  running : Bool
deriving DecidableEq, Repr

/-- Library-side dispose: stops the server process only when one is running.
    Returns the new state and the number of stop signals sent. -/
def libDisposeStart (d : StartDisposable) : StartDisposable × Nat :=
  if d.running then (⟨false⟩, 1) else (d, 0)

/-- Model of `ClangdLanguageClient` as far as its dispose behaviour goes
    (src/extension.ts, lines 177-186): `startDisposable` is absent until
    `start` has been called. -/
structure ClangdLanguageClient where
  startDisposable : Option StartDisposable
deriving DecidableEq, Repr

/-- From `ClangdLanguageClient.dispose` (src/extension.ts):
    `if (this.startDisposable) this.startDisposable.dispose();`.
    Returns the new client state and the number of process stop signals
    sent; the undefined case is guarded, so the function is total and no
    exception can escape. -/
def ClangdLanguageClient.dispose (c : ClangdLanguageClient) :
    ClangdLanguageClient × Nat :=
  match c.startDisposable with
  | none => (c, 0)
  | some d => (⟨some (libDisposeStart d).1⟩, (libDisposeStart d).2)

/-- C8: disposing a client twice in a row does not throw (the embedding is a
    total function), and the second dispose sends no stop signal to the
    underlying process and leaves the client state unchanged: disposing an
    already-stopped client is a no-op. -/
theorem claim_C8_double_dispose (c : ClangdLanguageClient) :
    ClangdLanguageClient.dispose (ClangdLanguageClient.dispose c).1 =
      ((ClangdLanguageClient.dispose c).1, 0) := by
  cases c with
  | mk sd =>
    cases sd with
    | none => rfl
    | some d =>
      cases d with
      | mk b => cases b <;> rfl

/-- Model of a vscode workspace folder: its uri rendered as a string. -/
structure WorkspaceFolder where
  uri : String
deriving DecidableEq, Repr

/-- The uri normalization shared by `sortedWorkspaceFolders` and
    `getOuterMostWorkspaceFolder` (src/extension.ts, lines 130-135 and
    148-151): append a trailing slash when the last character is not one. -/
def normalizeUri (u : String) : String :=
  if jsEndsWith u "/" then u else u ++ "/"

/-- The comparator `(a, b) => a.length - b.length` of
    `sortedWorkspaceFolders` as a relation. -/
def uriLenLe (a b : String) : Prop := a.length ≤ b.length

instance : DecidableRel uriLenLe := fun a b => Nat.decLe a.length b.length

instance : IsTotal String uriLenLe := ⟨fun a b => Nat.le_total a.length b.length⟩

instance : IsTrans String uriLenLe := ⟨fun _ _ _ => Nat.le_trans⟩

/-- From `sortedWorkspaceFolders` (src/extension.ts, lines 127-143): map each
    configured workspace folder to its slash-terminated uri string and sort
    ascending by length (JS `Array.sort` is a stable sort; modelled with
    insertion sort, which is stable). -/
def sortedWorkspaceFolders (folders : List WorkspaceFolder) : List String :=
  List.insertionSort uriLenLe (folders.map (fun f => normalizeUri f.uri))

/-- Model of `vscode.workspace.getWorkspaceFolder(Uri.parse(element))` for an
    element of the sorted list: the configured folder whose normalized uri is
    that element (external editor API; the elements of the sorted list are
    exactly the normalized folder uris). -/
def getWorkspaceFolder (folders : List WorkspaceFolder) (u : String) :
    Option WorkspaceFolder :=
  folders.find? (fun f => normalizeUri f.uri = u)

/-- From `getOuterMostWorkspaceFolder` (src/extension.ts, lines 145-157):
    scan the length-sorted uris and, at the first one that is a string prefix
    of the input folder's normalized uri, resolve it back to its folder
    object (the non-null assertion of the source is modelled by falling back
    to the input folder); if no element matches, return the input folder. -/
def getOuterMostWorkspaceFolder (folders : List WorkspaceFolder)
    (folder : WorkspaceFolder) : WorkspaceFolder :=
  match (sortedWorkspaceFolders folders).find?
      (fun element => jsStartsWith (normalizeUri folder.uri) element) with
  | some element => (getWorkspaceFolder folders element).getD folder
  | none => folder

/-- Helper: `find?` on a list sorted by a reflexive relation returns a
    minimal element among those satisfying the test. -/
lemma find?_sorted_minimal {p : String → Bool} :
    ∀ {l : List String}, List.Sorted uriLenLe l → ∀ {e : String},
      l.find? p = some e → ∀ x ∈ l, p x = true → uriLenLe e x := by
  intro l
  induction l with
  | nil => intro _ e hf; simp at hf
  | cons a t ih =>
    intro hs e hf x hx hpx
    rw [List.sorted_cons] at hs
    by_cases hpa : p a = true
    · rw [List.find?_cons_of_pos _ hpa] at hf
      injection hf with hf
      subst hf
      rcases List.mem_cons.mp hx with hxa | hxt
      · exact hxa ▸ Nat.le_refl _
      · exact hs.1 x hxt
    · rw [List.find?_cons_of_neg _ (by simpa using hpa)] at hf
      rcases List.mem_cons.mp hx with hxa | hxt
      · exact absurd (hxa ▸ hpx) hpa
      · exact ih hs.2 hf x hxt hpx

/-- C6: the outermost-workspace-folder lookup returns the folder resolved
    from the first uri, in the length-sorted normalized folder-uri list, that
    is a string prefix of the input folder's normalized uri; that uri is
    shortest among all configured prefixes; when no configured uri is a
    prefix the input folder is returned unchanged; and with configured
    folders `/ws` and `/ws/pkg`, the lookup for the folder `/ws/pkg` returns
    `/ws`. -/
theorem claim_C6_outermost_folder :
    (getOuterMostWorkspaceFolder [⟨"/ws"⟩, ⟨"/ws/pkg"⟩] ⟨"/ws/pkg"⟩ =
      ⟨"/ws"⟩) ∧
    (∀ folders : List WorkspaceFolder, ∀ folder : WorkspaceFolder,
      ((sortedWorkspaceFolders folders).find?
          (fun element => jsStartsWith (normalizeUri folder.uri) element) = none →
        getOuterMostWorkspaceFolder folders folder = folder) ∧
      (∀ e, (sortedWorkspaceFolders folders).find?
          (fun element => jsStartsWith (normalizeUri folder.uri) element) = some e →
        getOuterMostWorkspaceFolder folders folder =
          (getWorkspaceFolder folders e).getD folder ∧
        jsStartsWith (normalizeUri folder.uri) e = true ∧
        ∀ f2 ∈ folders, jsStartsWith (normalizeUri folder.uri)
            (normalizeUri f2.uri) = true →
          e.length ≤ (normalizeUri f2.uri).length)) := by
  constructor
  · decide
  · intro folders folder
    constructor
    · intro hnone
      rw [getOuterMostWorkspaceFolder, hnone]
    · intro e hsome
      refine ⟨by rw [getOuterMostWorkspaceFolder, hsome], ?_, ?_⟩
      · have := List.find?_some hsome
        exact this
      · intro f2 hf2 hpref
        have hsorted : List.Sorted uriLenLe (sortedWorkspaceFolders folders) :=
          List.sorted_insertionSort uriLenLe _
        have hmem : normalizeUri f2.uri ∈ sortedWorkspaceFolders folders := by
          rw [sortedWorkspaceFolders, (List.perm_insertionSort uriLenLe _).mem_iff]
          exact List.mem_map_of_mem _ hf2
        exact find?_sorted_minimal hsorted hsome _ hmem hpref

/-- Witness for `claim_C6_outermost_folder`: the general part applied at the
    concrete two-folder configuration of the concrete part. -/
theorem claim_C6_outermost_folder_witness :
    getOuterMostWorkspaceFolder [⟨"/ws"⟩, ⟨"/ws/pkg"⟩] ⟨"/ws/pkg"⟩ = ⟨"/ws"⟩ ∧
    getOuterMostWorkspaceFolder [⟨"/ws"⟩, ⟨"/ws/pkg"⟩] ⟨"/ws/pkg"⟩ =
      (getWorkspaceFolder [⟨"/ws"⟩, ⟨"/ws/pkg"⟩] "/ws/").getD ⟨"/ws/pkg"⟩ :=
  ⟨claim_C6_outermost_folder.1,
   ((claim_C6_outermost_folder.2 [⟨"/ws"⟩, ⟨"/ws/pkg"⟩] ⟨"/ws/pkg"⟩).2 "/ws/"
      (by decide)).1⟩

/-- Model of an open text document: uri scheme, language id, and the result
    of the external lookup `vscode.workspace.getWorkspaceFolder(document.uri)`
    carried on the document. -/
structure TextDocument where
  uriScheme : String
  languageId : String
  containingFolder : Option WorkspaceFolder
deriving DecidableEq, Repr

/-- The language ids accepted by `didOpenTextDocument`
    (src/extension.ts, line 299). -/
def supportedLanguages : List String :=
  ["cpp", "c", "cuda", "objective-c", "objective-cpp"]

/-- State of the client registry of src/extension.ts: `clients` models the
    `Map<WorkspaceFolder, ClangdLanguageClient>` as an insertion-ordered
    association list of folder and client id; `live` lists the clients that
    were created and started and not yet stopped (id and owning folder);
    `nextId` is the next fresh client id. -/
structure ClientState where
  clients : List (WorkspaceFolder × Nat)
  live : List (Nat × WorkspaceFolder)
  nextId : Nat
deriving DecidableEq, Repr

def mapHas (m : List (WorkspaceFolder × Nat)) (k : WorkspaceFolder) : Bool :=
  m.any (fun p => p.1 = k)

def mapGet (m : List (WorkspaceFolder × Nat)) (k : WorkspaceFolder) :
    Option Nat :=
  (m.find? (fun p => p.1 = k)).map (fun p => p.2)

/-- JS `Map.set`: replace in place when the key exists, append otherwise. -/
def mapSet (m : List (WorkspaceFolder × Nat)) (k : WorkspaceFolder) (v : Nat) :
    List (WorkspaceFolder × Nat) :=
  if mapHas m k then m.map (fun p => if p.1 = k then (k, v) else p)
  else m ++ [(k, v)]

def mapDelete (m : List (WorkspaceFolder × Nat)) (k : WorkspaceFolder) :
    List (WorkspaceFolder × Nat) :=
  m.filter (fun p => p.1 ≠ k)

/-- The create-and-start block shared by `didOpenTextDocument` (lines
    311-316) and the folder-addition branch (lines 334-338): build a client
    with `createClient`, register it, and start it. -/
def createAndStart (st : ClientState) (folder : WorkspaceFolder) : ClientState :=
  { clients := mapSet st.clients folder st.nextId,
    live := st.live ++ [(st.nextId, folder)],
    nextId := st.nextId + 1 }

/-- The stop-and-deregister block shared by the folder-removal branch (lines
    323-329) and the configuration-change branch (lines 346-355). -/
def stopAndRemove (st : ClientState) (folder : WorkspaceFolder) : ClientState :=
  match mapGet st.clients folder with
  | none => st
  | some cid =>
    { clients := mapDelete st.clients folder,
      live := st.live.filter (fun q => q.1 ≠ cid),
      nextId := st.nextId }

/-- From `didOpenTextDocument` (src/extension.ts, lines 297-317): filter by
    scheme and language, resolve the outermost workspace folder, check the
    per-folder `cpp.cppLanguageClient` configuration value, and create and
    start a client only when the registry has none for the folder. -/
def didOpenTextDocument (cfg : WorkspaceFolder → String)
    (folders : List WorkspaceFolder) (st : ClientState) (doc : TextDocument) :
    ClientState :=
  if doc.uriScheme ≠ "file" ∧ doc.uriScheme ≠ "untitled" then st
  else if doc.languageId ∉ supportedLanguages then st
  else
    match doc.containingFolder with
    | none => st
    | some f0 =>
      if cfg (getOuterMostWorkspaceFolder folders f0) ≠ "any" ∧
          cfg (getOuterMostWorkspaceFolder folders f0) ≠ "compile" then st
      else if mapHas st.clients (getOuterMostWorkspaceFolder folders f0) then st
      else createAndStart st (getOuterMostWorkspaceFolder folders f0)

/-- The removal half of the `onDidChangeWorkspaceFolders` handler
    (src/extension.ts, lines 323-329). -/
def onRemovedFolder (st : ClientState) (folder : WorkspaceFolder) :
    ClientState :=
  stopAndRemove st folder

/-- The addition half of the `onDidChangeWorkspaceFolders` handler
    (src/extension.ts, lines 331-340).  Note that the source enters the
    creation branch when the configuration value is NOT `any`/`compile`. -/
def onAddedFolder (cfg : WorkspaceFolder → String) (st : ClientState)
    (folder : WorkspaceFolder) : ClientState :=
  if cfg folder ≠ "any" ∧ cfg folder ≠ "compile" then
    if (mapGet st.clients folder).isNone then createAndStart st folder
    else st
  else st

/-- The `onDidChangeWorkspaceFolders` handler (src/extension.ts, lines
    322-342): process removals, then additions. -/
def onDidChangeWorkspaceFoldersHandler (cfg : WorkspaceFolder → String)
    (st : ClientState) (removed added : List WorkspaceFolder) : ClientState :=
  added.foldl (onAddedFolder cfg) (removed.foldl onRemovedFolder st)

/-- The `cpp`-scoped branch of the `onDidChangeConfiguration` handler
    (src/extension.ts, lines 344-357): stop and remove clients of folders no
    longer permitted, then re-run `didOpenTextDocument` on every open
    document. -/
def onConfigChangedCpp (cfg : WorkspaceFolder → String)
    (folders : List WorkspaceFolder) (docs : List TextDocument)
    (st : ClientState) : ClientState :=
  let st1 := folders.foldl
    (fun st folder =>
      if cfg folder ≠ "any" ∧ cfg folder ≠ "compile" ∧
          mapHas st.clients folder then stopAndRemove st folder
      else st) st
  docs.foldl (didOpenTextDocument cfg folders) st1

/-- From `deactivate` (src/extension.ts, lines 380-387): stop every
    registered client and clear the map. -/
def deactivateAll (st : ClientState) : ClientState :=
  { clients := [],
    live := st.live.filter
      (fun q => q.1 ∉ st.clients.map (fun p => p.2)),
    nextId := st.nextId }

/-- The `clangd`-scoped branch of the `onDidChangeConfiguration` handler
    (src/extension.ts, lines 359-362): deactivate, then re-run
    `didOpenTextDocument` on every open document. -/
def onConfigChangedClangd (cfg : WorkspaceFolder → String)
    (folders : List WorkspaceFolder) (docs : List TextDocument)
    (st : ClientState) : ClientState :=
  docs.foldl (didOpenTextDocument cfg folders) (deactivateAll st)

/-- The handler invocations of src/extension.ts that touch the client
    registry. -/
inductive ExtEvent where
  | openDoc (doc : TextDocument)
  | foldersChanged (removed added : List WorkspaceFolder)
  | cppConfigChanged
  | clangdConfigChanged
  | deactivateEvent

/-- One handler invocation. -/
def extStep (cfg : WorkspaceFolder → String) (folders : List WorkspaceFolder)
    (docs : List TextDocument) (st : ClientState) : ExtEvent → ClientState
  | ExtEvent.openDoc doc => didOpenTextDocument cfg folders st doc
  | ExtEvent.foldersChanged removed added =>
    onDidChangeWorkspaceFoldersHandler cfg st removed added
  | ExtEvent.cppConfigChanged => onConfigChangedCpp cfg folders docs st
  | ExtEvent.clangdConfigChanged => onConfigChangedClangd cfg folders docs st
  | ExtEvent.deactivateEvent => deactivateAll st

/-- Registry invariant: folder keys are unique; at most one live (created and
    started, not stopped) client per folder; live client ids are unique; the
    registry entries and the live clients agree; and live ids are below the
    next fresh id. -/
def ClientInv (st : ClientState) : Prop :=
  (st.clients.map (fun p => p.1)).Nodup ∧
  (st.live.map (fun q => q.2)).Nodup ∧
  (st.live.map (fun q => q.1)).Nodup ∧
  (∀ p ∈ st.clients, (p.2, p.1) ∈ st.live) ∧
  (∀ q ∈ st.live, (q.2, q.1) ∈ st.clients) ∧
  (∀ q ∈ st.live, q.1 < st.nextId)

instance (st : ClientState) : Decidable (ClientInv st) := by
  unfold ClientInv
  exact inferInstance

lemma fst_nodup_unique {α β : Type} :
    ∀ {l : List (α × β)}, (l.map (fun p => p.1)).Nodup →
      ∀ {a : α} {b c : β}, (a, b) ∈ l → (a, c) ∈ l → b = c := by
  intro l
  induction l with
  | nil => intro _ a b c hb; cases hb
  | cons p t ih =>
    intro hnd a b c hb hc
    rw [List.map_cons, List.nodup_cons] at hnd
    rcases List.mem_cons.mp hb with hb1 | hb1 <;>
      rcases List.mem_cons.mp hc with hc1 | hc1
    · exact congrArg Prod.snd (hb1.trans hc1.symm)
    · exfalso
      apply hnd.1
      have hpa : p.1 = a := by rw [← hb1]
      rw [hpa]
      exact List.mem_map.mpr ⟨(a, c), hc1, rfl⟩
    · exfalso
      apply hnd.1
      have hpa : p.1 = a := by rw [← hc1]
      rw [hpa]
      exact List.mem_map.mpr ⟨(a, b), hb1, rfl⟩
    · exact ih hnd.2 hb1 hc1

lemma mapHas_false_iff {m : List (WorkspaceFolder × Nat)}
    {k : WorkspaceFolder} :
    mapHas m k = false ↔ ∀ p ∈ m, p.1 ≠ k := by
  rw [← Bool.not_eq_true, mapHas, List.any_eq_true]
  constructor
  · intro h p hp hpk
    exact h ⟨p, hp, by simp [hpk]⟩
  · rintro h ⟨p, hp, hpk⟩
    exact h p hp (by simpa using hpk)

lemma mapGet_isNone {m : List (WorkspaceFolder × Nat)} {k : WorkspaceFolder}
    (h : (mapGet m k).isNone = true) : mapHas m k = false := by
  rw [mapGet] at h
  cases hf : m.find? (fun p => p.1 = k) with
  | some q => rw [hf] at h; simp at h
  | none =>
    rw [List.find?_eq_none] at hf
    refine mapHas_false_iff.mpr ?_
    intro p hp
    simpa using hf p hp

lemma mapGet_some_mem {m : List (WorkspaceFolder × Nat)}
    {k : WorkspaceFolder} {cid : Nat} (h : mapGet m k = some cid) :
    (k, cid) ∈ m := by
  rw [mapGet] at h
  cases hf : m.find? (fun p => p.1 = k) with
  | none => rw [hf] at h; cases h
  | some q =>
    rw [hf] at h
    have hq := List.mem_of_find?_eq_some hf
    have hk := List.find?_some hf
    obtain ⟨q1, q2⟩ := q
    simp only [decide_eq_true_eq] at hk
    have h2 : q2 = cid := by simpa using h
    subst hk
    subst h2
    exact hq

lemma nodup_append_singleton {α : Type} {l : List α} {a : α}
    (h : l.Nodup) (ha : a ∉ l) : (l ++ [a]).Nodup := by
  rw [List.nodup_append]
  refine ⟨h, List.nodup_singleton a, ?_⟩
  intro x hx hx2
  rw [List.mem_singleton] at hx2
  subst hx2
  exact ha hx

lemma inv_createAndStart {st : ClientState} {folder : WorkspaceFolder}
    (h : ClientInv st) (hf : mapHas st.clients folder = false) :
    ClientInv (createAndStart st folder) := by
  obtain ⟨h1, h2, h3, h4, h5, h6⟩ := h
  have hkey : folder ∉ st.clients.map (fun p => p.1) := by
    intro hmem
    rcases List.mem_map.mp hmem with ⟨p, hp, hpe⟩
    exact (mapHas_false_iff.mp hf p hp) hpe
  have hset : mapSet st.clients folder st.nextId =
      st.clients ++ [(folder, st.nextId)] := by
    rw [mapSet, if_neg (by simp [hf])]
  refine ⟨?_, ?_, ?_, ?_, ?_, ?_⟩
  · show ((mapSet st.clients folder st.nextId).map (fun p => p.1)).Nodup
    rw [hset, List.map_append]
    exact nodup_append_singleton h1 hkey
  · show ((st.live ++ [(st.nextId, folder)]).map (fun q => q.2)).Nodup
    rw [List.map_append]
    refine nodup_append_singleton h2 ?_
    intro hmem
    rcases List.mem_map.mp hmem with ⟨q, hq, hqe⟩
    apply hkey
    have := h5 q hq
    rw [hqe] at this
    exact List.mem_map_of_mem (fun p => p.1) this
  · show ((st.live ++ [(st.nextId, folder)]).map (fun q => q.1)).Nodup
    rw [List.map_append]
    refine nodup_append_singleton h3 ?_
    intro hmem
    rcases List.mem_map.mp hmem with ⟨q, hq, hqe⟩
    exact absurd (hqe ▸ h6 q hq) (Nat.lt_irrefl _)
  · intro p hp
    rw [createAndStart] at hp ⊢
    simp only at hp ⊢
    rw [hset] at hp
    rcases List.mem_append.mp hp with hp1 | hp1
    · exact List.mem_append_left _ (h4 p hp1)
    · rw [List.mem_singleton] at hp1
      subst hp1
      exact List.mem_append_right _ (by simp)
  · intro q hq
    simp only [createAndStart] at hq ⊢
    rw [hset]
    rcases List.mem_append.mp hq with hq1 | hq1
    · exact List.mem_append_left _ (h5 q hq1)
    · rw [List.mem_singleton] at hq1
      subst hq1
      exact List.mem_append_right _ (by simp)
  · intro q hq
    simp only [createAndStart] at hq ⊢
    rcases List.mem_append.mp hq with hq1 | hq1
    · exact Nat.lt_trans (h6 q hq1) (Nat.lt_succ_self _)
    · rw [List.mem_singleton] at hq1
      subst hq1
      exact Nat.lt_succ_self _

lemma inv_stopAndRemove {st : ClientState} {folder : WorkspaceFolder}
    (h : ClientInv st) : ClientInv (stopAndRemove st folder) := by
  obtain ⟨h1, h2, h3, h4, h5, h6⟩ := h
  rw [stopAndRemove]
  cases hget : mapGet st.clients folder with
  | none => exact ⟨h1, h2, h3, h4, h5, h6⟩
  | some cid =>
    have hmem : (folder, cid) ∈ st.clients := mapGet_some_mem hget
    refine ⟨?_, ?_, ?_, ?_, ?_, ?_⟩
    · exact h1.sublist (List.Sublist.map _ (List.filter_sublist _))
    · exact h2.sublist (List.Sublist.map _ (List.filter_sublist _))
    · exact h3.sublist (List.Sublist.map _ (List.filter_sublist _))
    · intro p hp
      simp only [mapDelete, List.mem_filter, decide_eq_true_eq] at hp ⊢
      refine ⟨h4 p hp.1, ?_⟩
      intro hpcid
      have hfl : (cid, folder) ∈ st.live := h4 (folder, cid) hmem
      have hpl : (p.2, p.1) ∈ st.live := h4 p hp.1
      rw [hpcid] at hpl
      exact hp.2 (fst_nodup_unique h3 hpl hfl)
    · intro q hq
      simp only [List.mem_filter, decide_eq_true_eq] at hq
      simp only [mapDelete, List.mem_filter, decide_eq_true_eq]
      refine ⟨h5 q hq.1, ?_⟩
      intro hqf
      have hqc : (q.2, q.1) ∈ st.clients := h5 q hq.1
      rw [hqf] at hqc
      exact hq.2 (fst_nodup_unique h1 hqc hmem)
    · intro q hq
      simp only [List.mem_filter] at hq
      exact h6 q hq.1

lemma inv_deactivateAll {st : ClientState} (h : ClientInv st) :
    ClientInv (deactivateAll st) := by
  obtain ⟨h1, h2, h3, h4, h5, h6⟩ := h
  have hlive : st.live.filter
      (fun q => q.1 ∉ st.clients.map (fun p => p.2)) = [] := by
    rw [List.filter_eq_nil_iff]
    intro q hq
    have : q.1 ∈ st.clients.map (fun p => p.2) :=
      List.mem_map.mpr ⟨(q.2, q.1), h5 q hq, rfl⟩
    simp [this]
  rw [deactivateAll, hlive]
  exact ⟨by simp, by simp, by simp, by simp, by simp, by simp⟩

lemma inv_foldl {α : Type} {f : ClientState → α → ClientState}
    (hf : ∀ st a, ClientInv st → ClientInv (f st a)) :
    ∀ (l : List α) (st : ClientState), ClientInv st →
      ClientInv (l.foldl f st) := by
  intro l
  induction l with
  | nil => intro st h; exact h
  | cons a t ih => intro st h; exact ih _ (hf st a h)

lemma inv_didOpen (cfg : WorkspaceFolder → String)
    (folders : List WorkspaceFolder) :
    ∀ (st : ClientState) (doc : TextDocument), ClientInv st →
      ClientInv (didOpenTextDocument cfg folders st doc) := by
  intro st doc h
  rw [didOpenTextDocument]
  split
  · exact h
  · split
    · exact h
    · split
      · exact h
      · split
        · exact h
        · split
          · exact h
          · rename_i hhas
            exact inv_createAndStart h (by simpa using hhas)

lemma inv_onAddedFolder (cfg : WorkspaceFolder → String) :
    ∀ (st : ClientState) (folder : WorkspaceFolder), ClientInv st →
      ClientInv (onAddedFolder cfg st folder) := by
  intro st folder h
  rw [onAddedFolder]
  split
  · split
    · rename_i hnone
      exact inv_createAndStart h (mapGet_isNone (by simpa using hnone))
    · exact h
  · exact h

/-- C9: every handler invocation of src/extension.ts preserves the registry
    invariant: folder keys stay unique, each workspace folder keeps at most
    one created-and-started client (second conjunct), and a client is
    created only when the registry holds none for the folder (otherwise the
    unguarded creation would duplicate a live folder entry and break the
    preserved uniqueness). -/
theorem claim_C9_one_client_per_folder (cfg : WorkspaceFolder → String)
    (folders : List WorkspaceFolder) (docs : List TextDocument)
    (st : ClientState) (e : ExtEvent) (h : ClientInv st) :
    ClientInv (extStep cfg folders docs st e) ∧
    ((extStep cfg folders docs st e).live.map (fun q => q.2)).Nodup := by
  have hinv : ClientInv (extStep cfg folders docs st e) := by
    cases e with
    | openDoc doc => exact inv_didOpen cfg folders st doc h
    | foldersChanged removed added =>
      exact inv_foldl (inv_onAddedFolder cfg) added _
        (inv_foldl (fun st f hst => inv_stopAndRemove hst) removed st h)
    | cppConfigChanged =>
      refine inv_foldl (inv_didOpen cfg folders) docs _ ?_
      refine inv_foldl ?_ folders st h
      intro st folder hst
      dsimp only
      split
      · exact inv_stopAndRemove hst
      · exact hst
    | clangdConfigChanged =>
      exact inv_foldl (inv_didOpen cfg folders) docs _ (inv_deactivateAll h)
    | deactivateEvent => exact inv_deactivateAll h
  exact ⟨hinv, hinv.2.1⟩

/-- Witness for `claim_C9_one_client_per_folder`: the empty registry
    satisfies the invariant and a document-open event preserves it. -/
theorem claim_C9_one_client_per_folder_witness :
    ClientInv ⟨[], [], 0⟩ ∧
    ClientInv (extStep (fun _ => "any") [] [] ⟨[], [], 0⟩
      (ExtEvent.openDoc ⟨"file", "cpp", some ⟨"/w"⟩⟩)) :=
  ⟨by decide,
   (claim_C9_one_client_per_folder (fun _ => "any") [] [] ⟨[], [], 0⟩
      (ExtEvent.openDoc ⟨"file", "cpp", some ⟨"/w"⟩⟩) (by decide)).1⟩

/-- C1 (code bug witness): the folder-addition handler's configuration check
    is inverted (src/extension.ts, line 333): an added folder configured
    `any` with no registered client gets NO client, while an added folder
    with any unrecognized configuration value gets one; the claim (and the
    sibling `didOpenTextDocument` check at line 308 together with the
    configuration-change handler at line 348) requires the opposite. -/
theorem claim_C1_added_folder_inverted :
    onAddedFolder (fun _ => "any") ⟨[], [], 0⟩ ⟨"/w"⟩ = ⟨[], [], 0⟩ ∧
    onAddedFolder (fun _ => "none") ⟨[], [], 0⟩ ⟨"/w"⟩ =
      ⟨[(⟨"/w"⟩, 0)], [(0, ⟨"/w"⟩)], 1⟩ := by
  constructor <;> decide
